import Mathlib

/-!
Verification of the thotp OTP library (`src/src/custom.rs`) against its
natural-language specification.

The embedding below translates the three public functions of `custom.rs`
(`otp_custom`, `verify_totp_custom`, `verify_hotp_custom`) into Lean.
Machine integers are modelled as `Nat` with explicit reductions modulo
`2 ^ 32` / `2 ^ 64` where the Rust code wraps, and fallible paths as
`Option` (where `none` models a Rust panic; the crate's `ThotpError` can
only arise from the HMAC primitive or the system clock, both of which are
external collaborators and are modelled as total inputs here).

Overflow-semantics choices, stated once and used consistently:
* `10_u32.pow(digits as u32)` (custom.rs line 41) is modelled with release
  (wrapping) semantics: the modulus is `10 ^ digits % 2 ^ 32`.
* the `u8` loop bound `lookahead + 1` (custom.rs line 183) is modelled with
  release (wrapping) semantics: the bound is `(lookahead + 1) % 256`.
* the `usize` padding count `digits - result.len()` (custom.rs line 44) is
  modelled with checked semantics: the call is `none` when
  `result.length > digits` (in release the wrapped count `2 ^ 64 - 1`
  makes the insertion loop effectively non-terminating, so the call never
  completes normally either way).
* `trunc % m` with `m = 0` and `timestamp / step` with `step = 0` are
  division/remainder by zero, a Rust panic in every build: `none`.

The HMAC primitive is an external capability (spec section 4.1), so every
definition is parametrised by a function `hm : List Nat → List Nat → List Nat`
standing for `hmac_digest::<H>`: it receives the secret bytes and the
8-byte big-endian nonce and returns the MAC bytes.
-/

namespace Thotp

/-- The `u32` modulus. -/
def U32 : Nat := 2 ^ 32

/-- The `u64` modulus. -/
def U64 : Nat := 2 ^ 64

/-- Big-endian byte encoding of a `u64` (`nonce.to_be_bytes()`, custom.rs line 32). -/
def u64BeBytes (n : Nat) : List Nat :=
  [n / 2 ^ 56 % 256, n / 2 ^ 48 % 256, n / 2 ^ 40 % 256, n / 2 ^ 32 % 256,
   n / 2 ^ 24 % 256, n / 2 ^ 16 % 256, n / 2 ^ 8 % 256, n % 256]

/-- Modelled from the spec: `dynamic_trunc` lives in the crate root
(`src/lib.rs`), which is not under `src/`; spec section 4.2 gives its
algorithm. Take the low 4 bits of the last MAC byte as an offset `o`, read
4 bytes starting at `o` as a big-endian 32-bit integer, and clear the most
significant bit (mask `0x7FFFFFFF`, i.e. reduce modulo `2 ^ 31`). Bytes are
reduced modulo 256 since the Rust values are `u8`. -/
def dynamic_trunc (mac : List Nat) : Nat :=
  let o := mac.getD (mac.length - 1) 0 % 16
  (mac.getD o 0 % 256 * 2 ^ 24 + mac.getD (o + 1) 0 % 256 * 2 ^ 16 +
   mac.getD (o + 2) 0 % 256 * 2 ^ 8 + mac.getD (o + 3) 0 % 256) % 2 ^ 31

/-- Fuel-based decimal rendering: the embedding of `u32::to_string()`
(custom.rs line 41). With fuel above `n` this produces the usual decimal
numeral, most significant digit first, and `['0']` for `0`. -/
def decRenderAux : Nat → Nat → List Char
  | 0, _ => []
  | fuel + 1, n =>
    if n < 10 then [Nat.digitChar n]
    else decRenderAux fuel (n / 10) ++ [Nat.digitChar (n % 10)]

/-- Decimal rendering of a natural number (`to_string()` on the reduced value). -/
def decRender (n : Nat) : List Char := decRenderAux (n + 1) n

/-- The padding loop of custom.rs lines 44-46: for `i` in
`0..(digits - result.len())`, insert `'0'` at position `i`. -/
def padLoop (digits : Nat) (s : List Char) : List Char :=
  (List.range (digits - s.length)).foldl (fun acc i => acc.insertIdx i '0') s

/-- Embedding of `otp_custom` (custom.rs lines 19-49): HMAC the big-endian
nonce, dynamically truncate, reduce modulo `10_u32.pow(digits)` (which
wraps modulo `2 ^ 32` in release; remainder by the wrapped value `0`, which
happens exactly when `digits ≥ 32`, panics), render in decimal and left-pad
with `'0'`. The padding count `digits - result.len()` is a `usize`
subtraction: it underflows (no normal completion, modelled `none`) when the
rendered string is longer than `digits`. -/
def otp_custom (hm : List Nat → List Nat → List Nat) (secret : List Nat)
    (nonce digits : Nat) : Option String :=
  let mac := hm secret (u64BeBytes nonce)
  let trunc := dynamic_trunc mac
  let m := 10 ^ digits % U32
  if m = 0 then none
  else
    let result := decRender (trunc % m)
    if result.length ≤ digits then some (String.mk (padLoop digits result)) else none

/-- The crate-level constant `ALLOWED_DRIFT` referenced by
`verify_totp_custom` at custom.rs line 132. It is declared in the crate
root (`src/lib.rs`, not under `src/`); its value `1` is stated in the doc
example of custom.rs (lines 72-74, listing the internal constants) and is
forced by that doc-test's assertion of `(true, 0)` at drift `1`. -/
def ALLOWED_DRIFT : Nat := 1

/-- The TOTP nonce (custom.rs lines 122-126): the timestamp divided by the
step, with a zero timestamp replaced by the system clock reading `now`
(the clock is an external collaborator, spec section 6; a successful read
is modelled as the input `now`). -/
def totpNonce (now timestamp step : Nat) : Nat :=
  (if timestamp = 0 then now else timestamp) / step

/-- Window start (custom.rs line 128): `nonce.saturating_sub(allowed_drift)`. -/
def totpStart (nonce allowed_drift : Nat) : Nat := nonce - allowed_drift

/-- Window end (custom.rs line 129): `nonce.saturating_add(allowed_drift)`,
saturating at `u64::MAX`. -/
def totpEnd (nonce allowed_drift : Nat) : Nat := min (nonce + allowed_drift) (U64 - 1)

/-- The scan loop of `verify_totp_custom` (custom.rs lines 134-140): walk
the window counters in ascending order carrying the discrepancy counter
`i`, return `(true, i)` on the first password match, `(false, 0)` if the
list is exhausted. `none` propagates a panic from `otp_custom`. -/
def scanTotp (hm : List Nat → List Nat → List Nat) (secret : List Nat) (digits : Nat)
    (password : String) : Int → List Nat → Option (Bool × Int)
  | _, [] => some (false, 0)
  | i, n :: rest =>
    match otp_custom hm secret n digits with
    | none => none
    | some pass =>
      if pass = password then some (true, i)
      else scanTotp hm secret digits password (i + 1) rest

/-- Embedding of `verify_totp_custom` (custom.rs lines 103-143). Note that
the discrepancy counter is initialised from the crate constant
`ALLOWED_DRIFT`, not from the `allowed_drift` parameter (custom.rs line
132: `let mut i = -(ALLOWED_DRIFT as i16);`). A zero `step` makes the
nonce computation a division by zero (Rust panic, modelled `none`). The
discrepancy is an `i16` in Rust; the window holds at most
`2 * 255 + 1 = 511` counters so the running value stays within `i16` range
and is modelled as `Int`. -/
def verify_totp_custom (hm : List Nat → List Nat → List Nat) (now : Nat)
    (password : String) (secret : List Nat)
    (timestamp digits step allowed_drift : Nat) : Option (Bool × Int) :=
  if step = 0 then none
  else
    let nonce := totpNonce now timestamp step
    let start := totpStart nonce allowed_drift
    let e := totpEnd nonce allowed_drift
    scanTotp hm secret digits password (-(ALLOWED_DRIFT : Int)) (List.range' start (e + 1 - start))

/-- The loop bound of `verify_hotp_custom` (custom.rs line 183):
`lookahead + 1` computed in `u8` arithmetic, wrapping modulo `2 ^ 8`. -/
def hotpBound (lookahead : Nat) : Nat := (lookahead + 1) % 256

/-- The scan loop of `verify_hotp_custom` (custom.rs lines 183-191): for
each offset `k` in the list, the scanned counter is
`(counter as u128 + k as u128) as u64`, i.e. `(counter + k) % 2 ^ 64`; on
the first password match return `(true, (current as u128 + 1) as u64)`,
and `(false, counter)` if the list is exhausted. -/
def scanHotp (hm : List Nat → List Nat → List Nat) (secret : List Nat) (digits : Nat)
    (password : String) (counter : Nat) : List Nat → Option (Bool × Nat)
  | [] => some (false, counter)
  | k :: rest =>
    match otp_custom hm secret ((counter + k) % U64) digits with
    | none => none
    | some pass =>
      if pass = password then some (true, ((counter + k) % U64 + 1) % U64)
      else scanHotp hm secret digits password counter rest

/-- Embedding of `verify_hotp_custom` (custom.rs lines 165-194): scan the
offsets `0, 1, ..., hotpBound lookahead - 1` in ascending order. -/
def verify_hotp_custom (hm : List Nat → List Nat → List Nat) (password : String)
    (secret : List Nat) (counter lookahead digits : Nat) : Option (Bool × Nat) :=
  scanHotp hm secret digits password counter (List.range (hotpBound lookahead))

/-- A concrete instantiation of the generic hash parameter: the constant
MAC returning twenty zero bytes. It satisfies the capability contract of
spec section 4.1 (deterministic, fixed 20-byte output) and is used to
evaluate the embedding at concrete inputs. -/
def hm0 : List Nat → List Nat → List Nat := fun _ _ => List.replicate 20 0

/-- A concrete instantiation of the generic hash parameter: the constant
MAC returning twenty `0xFF` bytes, whose dynamic truncation is the maximal
31-bit value `2147483647`. -/
def hmFF : List Nat → List Nat → List Nat := fun _ _ => List.replicate 20 255

/-- A concrete instantiation of the generic hash parameter that depends on
its message: twenty copies of the last message byte (for an 8-byte
big-endian nonce, its low byte), so distinct small nonces get distinct
MACs. It satisfies the capability contract of spec section 4.1. -/
def hmIdx : List Nat → List Nat → List Nat := fun _ msg => List.replicate 20 (msg.getD 7 0)

/-! ### Helper lemmas about the generator pipeline -/

/-- The dynamic truncation result is a 31-bit value. -/
theorem dynamic_trunc_lt (mac : List Nat) : dynamic_trunc mac < 2 ^ 31 := by
  unfold dynamic_trunc
  exact Nat.mod_lt _ (by norm_num)

/-- Every digit character of a digit value below ten is a decimal character. -/
theorem digitChar_isDigit : ∀ d < 10, (Nat.digitChar d).isDigit = true := by decide

/-- With enough fuel, the rendering of a value below `10 ^ d` has at most `d`
characters. -/
theorem decRenderAux_length_le (fuel : Nat) : ∀ n d : Nat, n < fuel → n < 10 ^ d → 1 ≤ d →
    (decRenderAux fuel n).length ≤ d := by
  induction fuel with
  | zero => intro n d h _ _; omega
  | succ f ih =>
    intro n d hf hd h1
    by_cases h10 : n < 10
    · simp only [decRenderAux, if_pos h10, List.length_singleton]
      omega
    · have h2 : 2 ≤ d := by
        by_contra hc
        have hd1 : d = 1 := by omega
        subst hd1
        norm_num at hd
        omega
      simp only [decRenderAux, if_neg h10, List.length_append, List.length_singleton]
      have hdiv : n / 10 < f := by
        have : n / 10 < n := Nat.div_lt_self (by omega) (by norm_num)
        omega
      have hpow : n / 10 < 10 ^ (d - 1) := by
        rw [Nat.div_lt_iff_lt_mul (by norm_num)]
        have hp : 10 ^ (d - 1) * 10 = 10 ^ d := by
          rw [← Nat.pow_succ]
          congr 1
          omega
        omega
      have := ih (n / 10) (d - 1) hdiv hpow (by omega)
      omega

/-- With enough fuel, the rendering is nonempty. -/
theorem decRenderAux_length_pos (fuel : Nat) : ∀ n : Nat, n < fuel →
    1 ≤ (decRenderAux fuel n).length := by
  induction fuel with
  | zero => intro n h; omega
  | succ f _ =>
    intro n _
    by_cases h10 : n < 10
    · simp [decRenderAux, h10]
    · simp [decRenderAux, h10]

/-- Every character the renderer emits is a decimal character. -/
theorem decRenderAux_isDigit (fuel : Nat) : ∀ n : Nat, ∀ c ∈ decRenderAux fuel n,
    c.isDigit = true := by
  induction fuel with
  | zero => intro n c hc; simp [decRenderAux] at hc
  | succ f ih =>
    intro n c hc
    by_cases h10 : n < 10
    · rw [decRenderAux, if_pos h10] at hc
      simp only [List.mem_singleton] at hc
      subst hc
      exact digitChar_isDigit n h10
    · rw [decRenderAux, if_neg h10] at hc
      rw [List.mem_append, List.mem_singleton] at hc
      rcases hc with hc | hc
      · exact ih _ c hc
      · subst hc
        exact digitChar_isDigit _ (Nat.mod_lt _ (by norm_num))

/-- The decimal rendering of a value below `10 ^ d` has at most `d` characters. -/
theorem decRender_length_le {n d : Nat} (hd : n < 10 ^ d) (h1 : 1 ≤ d) :
    (decRender n).length ≤ d :=
  decRenderAux_length_le (n + 1) n d (Nat.lt_succ_self n) hd h1

/-- The decimal rendering is nonempty. -/
theorem decRender_length_pos (n : Nat) : 1 ≤ (decRender n).length :=
  decRenderAux_length_pos (n + 1) n (Nat.lt_succ_self n)

/-- The decimal rendering consists of decimal characters. -/
theorem decRender_isDigit (n : Nat) : ∀ c ∈ decRender n, c.isDigit = true :=
  decRenderAux_isDigit (n + 1) n

/-- Inserting `'0'` at position `i` of a list starting with `i` zeros prepends
one more zero. -/
theorem insertIdx_replicate_append (i : Nat) (l : List Char) :
    List.insertIdx i '0' (List.replicate i '0' ++ l) = List.replicate (i + 1) '0' ++ l := by
  induction i with
  | zero => simp
  | succ j ih =>
    rw [List.replicate_succ, List.cons_append, List.insertIdx_succ_cons, ih]
    simp [List.replicate_succ]

/-- The insertion loop over `0, ..., n-1` prepends `n` zeros. -/
theorem foldl_insertIdx (n : Nat) (l : List Char) :
    (List.range n).foldl (fun acc i => acc.insertIdx i '0') l = List.replicate n '0' ++ l := by
  induction n with
  | zero => simp
  | succ m ih =>
    rw [List.range_succ, List.foldl_append, ih]
    simp only [List.foldl_cons, List.foldl_nil]
    exact insertIdx_replicate_append m l

/-- The padding loop prepends exactly `d - l.length` zeros. -/
theorem padLoop_eq (d : Nat) (l : List Char) :
    padLoop d l = List.replicate (d - l.length) '0' ++ l := foldl_insertIdx _ l

/-- Padding a string of at most `d` characters yields exactly `d` characters. -/
theorem padLoop_length {d : Nat} {l : List Char} (h : l.length ≤ d) :
    (padLoop d l).length = d := by
  rw [padLoop_eq, List.length_append, List.length_replicate]
  omega

/-- Padding preserves the all-decimal-characters property. -/
theorem padLoop_isDigit {d : Nat} {l : List Char} (h : ∀ c ∈ l, c.isDigit = true) :
    ∀ c ∈ padLoop d l, c.isDigit = true := by
  rw [padLoop_eq]
  intro c hc
  rw [List.mem_append] at hc
  rcases hc with hc | hc
  · rw [List.eq_of_mem_replicate hc]
    decide
  · exact h c hc

/-- For `digits ≤ 31`, the wrapped modulus `10 ^ digits % 2 ^ 32` is nonzero
(the 2-adic valuation of `10 ^ digits` is `digits < 32`). -/
theorem pow10_mod_ne_zero {d : Nat} (h : d ≤ 31) : 10 ^ d % U32 ≠ 0 := by
  interval_cases d <;> decide

/-- For `digits ≥ 32`, `2 ^ 32` divides `10 ^ digits`, so the wrapped modulus
is zero and the Rust remainder panics. -/
theorem pow10_mod_eq_zero {d : Nat} (h : 32 ≤ d) : 10 ^ d % U32 = 0 := by
  apply Nat.mod_eq_zero_of_dvd
  have h10 : (10 : Nat) ^ d = 2 ^ d * 5 ^ d := by rw [← mul_pow]; norm_num
  rw [h10]
  exact dvd_mul_of_dvd_left (pow_dvd_pow 2 h) _

/-- The reduced code is below `10 ^ digits` (the wrapped modulus is at most
the true one). -/
theorem otp_code_lt (hm : List Nat → List Nat → List Nat) (secret : List Nat) (nonce : Nat)
    {d : Nat} (h31 : d ≤ 31) :
    dynamic_trunc (hm secret (u64BeBytes nonce)) % (10 ^ d % U32) < 10 ^ d :=
  lt_of_lt_of_le (Nat.mod_lt _ (Nat.pos_of_ne_zero (pow10_mod_ne_zero h31))) (Nat.mod_le _ _)

/-- For `1 ≤ digits ≤ 31` the generator completes normally and its output is
the padded decimal rendering of the reduced truncation. -/
theorem otp_eq (hm : List Nat → List Nat → List Nat) (secret : List Nat) (nonce : Nat)
    {d : Nat} (h1 : 1 ≤ d) (h31 : d ≤ 31) :
    otp_custom hm secret nonce d =
      some (String.mk (padLoop d (decRender
        (dynamic_trunc (hm secret (u64BeBytes nonce)) % (10 ^ d % U32))))) := by
  have hmz : 10 ^ d % U32 ≠ 0 := pow10_mod_ne_zero h31
  have hlen : (decRender (dynamic_trunc (hm secret (u64BeBytes nonce)) % (10 ^ d % U32))).length ≤ d :=
    decRender_length_le (otp_code_lt hm secret nonce h31) h1
  simp only [otp_custom]
  rw [if_neg hmz, if_pos hlen]

/-- For `1 ≤ digits ≤ 31` the generator returns a string of exactly `digits`
decimal characters. -/
theorem otp_spec (hm : List Nat → List Nat → List Nat) (secret : List Nat) (nonce : Nat)
    {d : Nat} (h1 : 1 ≤ d) (h31 : d ≤ 31) :
    ∃ s : String, otp_custom hm secret nonce d = some s ∧ s.length = d ∧
      ∀ c ∈ s.data, c.isDigit = true := by
  refine ⟨_, otp_eq hm secret nonce h1 h31, ?_, ?_⟩
  · rw [String.length_mk]
    exact padLoop_length (decRender_length_le (otp_code_lt hm secret nonce h31) h1)
  · exact padLoop_isDigit (decRender_isDigit _)

/-! ### Helper lemmas about the verifier scan loops -/

/-- Unfolding of the TOTP scan at a counter whose generation succeeds. -/
theorem scanTotp_cons_some (hm : List Nat → List Nat → List Nat) (secret : List Nat)
    (digits : Nat) (password : String) (i : Int) (n : Nat) (rest : List Nat) {s : String}
    (hs : otp_custom hm secret n digits = some s) :
    scanTotp hm secret digits password i (n :: rest) =
      if s = password then some (true, i)
      else scanTotp hm secret digits password (i + 1) rest := by
  simp only [scanTotp, hs]

/-- Unfolding of the HOTP scan at an offset whose generation succeeds. -/
theorem scanHotp_cons_some (hm : List Nat → List Nat → List Nat) (secret : List Nat)
    (digits : Nat) (password : String) (counter k : Nat) (rest : List Nat) {s : String}
    (hs : otp_custom hm secret ((counter + k) % U64) digits = some s) :
    scanHotp hm secret digits password counter (k :: rest) =
      if s = password then some (true, ((counter + k) % U64 + 1) % U64)
      else scanHotp hm secret digits password counter rest := by
  simp only [scanHotp, hs]

/-- If every window counter generates a password different from the
candidate, the TOTP scan returns `(false, 0)`. -/
theorem scanTotp_no_match (hm : List Nat → List Nat → List Nat) (secret : List Nat)
    (digits : Nat) (password : String) :
    ∀ (l : List Nat) (i : Int),
      (∀ n ∈ l, ∃ s, otp_custom hm secret n digits = some s ∧ s ≠ password) →
      scanTotp hm secret digits password i l = some (false, 0) := by
  intro l
  induction l with
  | nil => intro i _; rfl
  | cons n rest ih =>
    intro i h
    obtain ⟨s, hs, hne⟩ := h n (by simp)
    rw [scanTotp_cons_some hm secret digits password i n rest hs, if_neg hne]
    exact ih (i + 1) fun m hmem => h m (by simp [hmem])

/-- If every scanned offset generates a password different from the
candidate, the HOTP scan returns `(false, counter)`. -/
theorem scanHotp_no_match (hm : List Nat → List Nat → List Nat) (secret : List Nat)
    (digits : Nat) (password : String) (counter : Nat) :
    ∀ l : List Nat,
      (∀ k ∈ l, ∃ s, otp_custom hm secret ((counter + k) % U64) digits = some s ∧ s ≠ password) →
      scanHotp hm secret digits password counter l = some (false, counter) := by
  intro l
  induction l with
  | nil => intro _; rfl
  | cons k rest ih =>
    intro h
    obtain ⟨s, hs, hne⟩ := h k (by simp)
    rw [scanHotp_cons_some hm secret digits password counter k rest hs, if_neg hne]
    exact ih fun m hmem => h m (by simp [hmem])

/-- First-match behaviour of the HOTP scan: if the offsets before `k` all
generate passwords different from the candidate and `k` generates the
candidate, the scan returns `(true, (counter + k) % 2 ^ 64 + 1 mod 2 ^ 64)`. -/
theorem scanHotp_match (hm : List Nat → List Nat → List Nat) (secret : List Nat)
    (digits : Nat) (password : String) (counter : Nat) :
    ∀ (l₁ : List Nat) (k : Nat) (l₂ : List Nat),
      (∀ j ∈ l₁, ∃ s, otp_custom hm secret ((counter + j) % U64) digits = some s ∧ s ≠ password) →
      otp_custom hm secret ((counter + k) % U64) digits = some password →
      scanHotp hm secret digits password counter (l₁ ++ k :: l₂) =
        some (true, ((counter + k) % U64 + 1) % U64) := by
  intro l₁
  induction l₁ with
  | nil =>
    intro k l₂ _ hk
    rw [List.nil_append, scanHotp_cons_some hm secret digits password counter k l₂ hk, if_pos rfl]
  | cons j rest ih =>
    intro k l₂ hno hk
    obtain ⟨s, hs, hne⟩ := hno j (by simp)
    rw [List.cons_append, scanHotp_cons_some hm secret digits password counter j _ hs, if_neg hne]
    exact ih k l₂ (fun m hmem => hno m (by simp [hmem])) hk

/-- Totality of the HOTP scan when every scanned offset generates some
password: the result exists, a failure keeps the counter, and a success
carries a scanned counter plus one, reduced modulo `2 ^ 64`. -/
theorem scanHotp_total (hm : List Nat → List Nat → List Nat) (secret : List Nat)
    (digits : Nat) (password : String) (counter : Nat) :
    ∀ l : List Nat,
      (∀ k ∈ l, ∃ s, otp_custom hm secret ((counter + k) % U64) digits = some s) →
      ∃ r : Bool × Nat, scanHotp hm secret digits password counter l = some r ∧
        (r.1 = false → r.2 = counter) ∧
        (r.1 = true → ∃ k ∈ l, r.2 = ((counter + k) % U64 + 1) % U64) := by
  intro l
  induction l with
  | nil => exact fun _ => ⟨(false, counter), rfl, fun _ => rfl, by simp⟩
  | cons k rest ih =>
    intro h
    obtain ⟨s, hs⟩ := h k (by simp)
    rw [scanHotp_cons_some hm secret digits password counter k rest hs]
    by_cases hp : s = password
    · rw [if_pos hp]
      exact ⟨(true, ((counter + k) % U64 + 1) % U64), rfl, by simp,
        fun _ => ⟨k, by simp, rfl⟩⟩
    · rw [if_neg hp]
      obtain ⟨r, hr, h1, h2⟩ := ih fun m hmem => h m (by simp [hmem])
      refine ⟨r, hr, h1, fun ht => ?_⟩
      obtain ⟨k', hk', he⟩ := h2 ht
      exact ⟨k', by simp [hk'], he⟩

/-- Splitting `List.range n` at an element `k < n`. -/
theorem range_split {k n : Nat} (h : k < n) :
    List.range n = List.range k ++ k :: List.range' (k + 1) (n - k - 1) := by
  have h2 : List.range' k (n - k) = k :: List.range' (k + 1) (n - k - 1) := by
    have he : n - k = (n - k - 1) + 1 := by omega
    rw [he, List.range'_succ]
    simp
  rw [List.range_eq_range', List.range_eq_range', ← h2]
  have ha := List.range'_append 0 k (n - k) 1
  simp only [Nat.zero_add, Nat.one_mul] at ha
  rw [ha]
  congr 1
  omega

/-- Under the constant-zero MAC every nonce generates the password
"000000" at six digits. -/
theorem otp_hm0_const (n : Nat) : otp_custom hm0 [] n 6 = some "000000" := by
  have hmac : hm0 [] (u64BeBytes n) = List.replicate 20 0 := rfl
  rw [otp_eq hm0 [] n (by norm_num) (by norm_num), hmac]
  decide

/-! ### Claim theorems -/

/-- C1 (code_bug evaluation): the claim says the TOTP discrepancy starts at
`-allowed_drift` (the argument passed to the call), but custom.rs line 132
initialises it from the crate constant `ALLOWED_DRIFT = 1`. At the failing
input — constant-zero MAC so every window counter yields "000000",
timestamp 90, digits 6, step 30, allowed_drift 2 — the first scanned
counter (the window start) matches and the code returns discrepancy `-1`,
whereas the claim requires `-allowed_drift = -2`. -/
theorem claim_C1_bug_eval :
    verify_totp_custom hm0 0 "000000" [] 90 6 30 2 = some (true, -1) ∧ (-1 : Int) ≠ -2 := by
  decide

/-- C2 (code_bug evaluation): verifying the password generated at counter
`timestamp / step` with `allowed_drift = 0` returns `(true, -1)`, not
`(true, 0)`: the discrepancy counter starts at `-(ALLOWED_DRIFT) = -1`
(crate constant, custom.rs line 132) instead of `-allowed_drift = 0`, and
the single (matching) window counter is scanned with that initial value.
Failing input: constant-zero MAC, secret `[]`, timestamp 30, step 30,
digits 6, drift 0. -/
theorem claim_C2_bug_eval :
    otp_custom hm0 [] (30 / 30) 6 = some "000000" ∧
    verify_totp_custom hm0 0 "000000" [] 30 6 30 0 = some (true, -1) ∧
    some ((true : Bool), (-1 : Int)) ≠ some ((true : Bool), (0 : Int)) := by
  decide

/-- C3 (confirmed): for every MAC function, secret, moving factor and
`digits` in `[1, 10]`, `otp_custom` completes normally with a string of
exactly `digits` characters, all decimal. -/
theorem claim_C3_otp_digits (hm : List Nat → List Nat → List Nat) (secret : List Nat)
    (nonce digits : Nat) (h1 : 1 ≤ digits) (h10 : digits ≤ 10) :
    ∃ s : String, otp_custom hm secret nonce digits = some s ∧ s.length = digits ∧
      ∀ c ∈ s.data, c.isDigit = true :=
  otp_spec hm secret nonce h1 (by omega)

/-- Witness for C3 at a concrete input: the constant-zero MAC, secret `[]`,
nonce 5, digits 6. -/
theorem claim_C3_witness :
    ∃ s : String, otp_custom hm0 [] 5 6 = some s ∧ s.length = 6 ∧
      ∀ c ∈ s.data, c.isDigit = true :=
  claim_C3_otp_digits hm0 [] 5 6 (by decide) (by decide)

/-- Counterexample to C4 as stated. The claim says that for `digits > 10`
the modulus step is the identity on the 31-bit truncated value `v`, so the
rendered code equals `v` left-padded. With the all-`0xFF` MAC, `v` is
`2147483647`; at `digits = 11` the Rust modulus is `10_u32.pow(11)`, which
wraps to `1215752192`, and the produced code is `"00931731455"`
(`2147483647 % 1215752192 = 931731455`), not `"02147483647"`. Moreover at
`digits = 32` the wrapped modulus is `0` and the remainder panics, so no
password is produced at all. -/
theorem claim_C4_counterexample :
    otp_custom hmFF [] 0 11 = some "00931731455" ∧
    otp_custom hmFF [] 0 11 ≠ some "02147483647" ∧
    otp_custom hmFF [] 0 32 = none := by
  decide

/-- C4 (amended): for `10 < digits ≤ 31` the generator still produces a
`digits`-character password, but the code is the truncated value reduced
modulo the wrapped modulus `10 ^ digits % 2 ^ 32`; it equals the truncated
value only when the latter is below that wrapped modulus. For
`digits ≥ 32` the wrapped modulus is zero and the remainder operation
panics, so no password is produced. -/
theorem claim_C4_amended (hm : List Nat → List Nat → List Nat) (secret : List Nat)
    (nonce digits : Nat) (hd : 10 < digits) :
    (digits ≤ 31 →
      ∃ s : String, otp_custom hm secret nonce digits = some s ∧ s.length = digits ∧
        s = String.mk (padLoop digits (decRender
          (dynamic_trunc (hm secret (u64BeBytes nonce)) % (10 ^ digits % U32)))) ∧
        (dynamic_trunc (hm secret (u64BeBytes nonce)) < 10 ^ digits % U32 →
          dynamic_trunc (hm secret (u64BeBytes nonce)) % (10 ^ digits % U32) =
            dynamic_trunc (hm secret (u64BeBytes nonce)))) ∧
    (32 ≤ digits → otp_custom hm secret nonce digits = none) := by
  constructor
  · intro h31
    refine ⟨_, otp_eq hm secret nonce (by omega) h31, ?_, rfl, fun hlt => Nat.mod_eq_of_lt hlt⟩
    rw [String.length_mk]
    exact padLoop_length (decRender_length_le (otp_code_lt hm secret nonce h31) (by omega))
  · intro h32
    simp only [otp_custom]
    rw [pow10_mod_eq_zero h32]
    simp

/-- Witness for C4 (amended) at a concrete input: `digits = 40 ≥ 32` panics. -/
theorem claim_C4_witness : otp_custom hmFF [] 0 40 = none :=
  (claim_C4_amended hmFF [] 0 40 (by decide)).2 (by decide)

/-- Counterexample to C5 as stated. The claim quantifies over every
`lookahead ≥ 0`; at the `u8` maximum `lookahead = 255` the loop bound
`lookahead + 1` wraps to 0, no counter is scanned, and verification of the
freshly generated password fails with `(false, counter)` instead of
returning `(true, counter + 1)`. -/
theorem claim_C5_counterexample :
    otp_custom hm0 [] 0 6 = some "000000" ∧
    verify_hotp_custom hm0 "000000" [] 0 255 6 = some (false, 0) ∧
    verify_hotp_custom hm0 "000000" [] 0 255 6 ≠ some (true, 1) := by
  decide

/-- C5 (amended): for every MAC function, secret, counter `c < 2 ^ 64`,
`digits` in `[1, 10]` and `lookahead ≤ 254`, verifying the password
generated at `c` returns `(true, (c + 1) % 2 ^ 64)` (the stored counter
plus one, wraparound-safe). -/
theorem claim_C5_amended (hm : List Nat → List Nat → List Nat) (secret : List Nat)
    (c lookahead digits : Nat) (hc : c < U64) (h1 : 1 ≤ digits) (h10 : digits ≤ 10)
    (hla : lookahead ≤ 254) {p : String} (hp : otp_custom hm secret c digits = some p) :
    verify_hotp_custom hm p secret c lookahead digits = some (true, (c + 1) % U64) := by
  unfold verify_hotp_custom
  have hb : hotpBound lookahead = lookahead + 1 := Nat.mod_eq_of_lt (by omega)
  rw [hb, range_split (show 0 < lookahead + 1 by omega)]
  simp only [List.range_zero, List.nil_append]
  have h0 : (c + 0) % U64 = c := by
    rw [Nat.add_zero, Nat.mod_eq_of_lt hc]
  rw [scanHotp_cons_some hm secret digits p c 0 _ (by rw [h0]; exact hp), if_pos rfl, h0]

/-- Witness for C5 (amended) at a concrete input: constant-zero MAC,
secret `[]`, counter 7, lookahead 20, digits 6. -/
theorem claim_C5_witness :
    verify_hotp_custom hm0 "000000" [] 7 20 6 = some (true, (7 + 1) % U64) :=
  claim_C5_amended hm0 [] 7 20 6 (by decide) (by decide) (by decide) (by decide) (by decide)

/-- Counterexample to C6 as stated. The scan returns on the FIRST matching
counter, so when an earlier window counter generates the same password the
returned next counter is not `counter + k + 1`. With the constant-zero MAC
every counter generates "000000": verifying the password generated at
`counter + k = 0 + 1` matches already at counter 0 and returns `(true, 1)`,
not `(true, 2)` as the claim requires. -/
theorem claim_C6_counterexample :
    otp_custom hm0 [] 1 6 = some "000000" ∧
    verify_hotp_custom hm0 "000000" [] 0 1 6 = some (true, 1) ∧
    verify_hotp_custom hm0 "000000" [] 0 1 6 ≠ some (true, 2) := by
  decide

/-- C6 (amended): for `digits` in `[1, 10]`, `k ≤ lookahead ≤ 254`, if no
earlier window counter `counter + j` (`j < k`) generates the candidate
password (first-match rule), verifying the password generated at
`counter + k` returns `(true, ((counter + k) % 2 ^ 64 + 1) % 2 ^ 64)`. -/
theorem claim_C6_amended (hm : List Nat → List Nat → List Nat) (secret : List Nat)
    (counter k lookahead digits : Nat) (h1 : 1 ≤ digits) (h10 : digits ≤ 10)
    (hk : k ≤ lookahead) (hla : lookahead ≤ 254) {p : String}
    (hp : otp_custom hm secret ((counter + k) % U64) digits = some p)
    (hfirst : ∀ j < k, otp_custom hm secret ((counter + j) % U64) digits ≠ some p) :
    verify_hotp_custom hm p secret counter lookahead digits =
      some (true, ((counter + k) % U64 + 1) % U64) := by
  unfold verify_hotp_custom
  have hb : hotpBound lookahead = lookahead + 1 := Nat.mod_eq_of_lt (by omega)
  rw [hb, range_split (show k < lookahead + 1 by omega)]
  apply scanHotp_match
  · intro j hj
    rw [List.mem_range] at hj
    obtain ⟨s, hs, -, -⟩ := otp_spec hm secret ((counter + j) % U64) h1 (by omega)
    exact ⟨s, hs, fun hsp => hfirst j hj (hsp ▸ hs)⟩
  · exact hp

/-- Witness for C6 (amended) at a concrete input: the message-dependent MAC
`hmIdx` gives pairwise distinct passwords at counters 0, 1, 2; the password
generated at `counter + k = 0 + 2` is first matched at offset 2. -/
theorem claim_C6_witness :
    verify_hotp_custom hmIdx "686018" [] 0 3 6 = some (true, ((0 + 2) % U64 + 1) % U64) :=
  claim_C6_amended hmIdx [] 0 2 3 6 (by decide) (by decide) (by decide) (by decide)
    (by decide) (by intro j hj; interval_cases j <;> decide)

/-- C7 (confirmed): failure leaves the caller's state designators
unchanged. If no counter of the scanned TOTP window `start..=end`
generates the candidate password, `verify_totp_custom` returns
`(false, 0)`; if no counter of the scanned HOTP window
`counter..counter+lookahead` generates it, `verify_hotp_custom` returns
`(false, counter)` with the original counter. Domain conditions: a nonzero
step (a zero step is a division-by-zero panic before any scan) and
`digits` in `[1, 10]` (a zero digit count panics inside generation, claim
C9). -/
theorem claim_C7_no_match (hm : List Nat → List Nat → List Nat) (secret : List Nat)
    (password : String) (digits : Nat) (h1 : 1 ≤ digits) (h10 : digits ≤ 10) :
    (∀ now timestamp step allowed_drift : Nat, step ≠ 0 → now < U64 → timestamp < U64 →
      (∀ n, totpStart (totpNonce now timestamp step) allowed_drift ≤ n →
        n ≤ totpEnd (totpNonce now timestamp step) allowed_drift →
        otp_custom hm secret n digits ≠ some password) →
      verify_totp_custom hm now password secret timestamp digits step allowed_drift =
        some (false, 0)) ∧
    (∀ counter lookahead : Nat,
      (∀ k, k ≤ lookahead → otp_custom hm secret ((counter + k) % U64) digits ≠ some password) →
      verify_hotp_custom hm password secret counter lookahead digits = some (false, counter)) := by
  constructor
  · intro now timestamp step allowed_drift hstep hnow hts hno
    unfold verify_totp_custom
    rw [if_neg hstep]
    apply scanTotp_no_match
    intro n hn
    rw [List.mem_range'_1] at hn
    have hnonce : totpNonce now timestamp step < U64 := by
      unfold totpNonce
      split
      · exact lt_of_le_of_lt (Nat.div_le_self _ _) hnow
      · exact lt_of_le_of_lt (Nat.div_le_self _ _) hts
    have hse : totpStart (totpNonce now timestamp step) allowed_drift ≤
        totpEnd (totpNonce now timestamp step) allowed_drift := by
      unfold totpStart totpEnd
      omega
    obtain ⟨s, hs, -, -⟩ := otp_spec hm secret n h1 (by omega)
    refine ⟨s, hs, fun hsp => ?_⟩
    exact hno n hn.1 (by omega) (hsp ▸ hs)
  · intro counter lookahead hno
    unfold verify_hotp_custom
    apply scanHotp_no_match
    intro k hk
    rw [List.mem_range] at hk
    have hk' : k ≤ lookahead := by
      have := Nat.mod_le (lookahead + 1) 256
      unfold hotpBound at hk
      omega
    obtain ⟨s, hs, -, -⟩ := otp_spec hm secret ((counter + k) % U64) h1 (by omega)
    exact ⟨s, hs, fun hsp => hno k hk' (hsp ▸ hs)⟩

/-- Witness for C7 at concrete inputs: with the constant-zero MAC every
counter generates "000000", so the candidate "111111" matches nowhere. -/
theorem claim_C7_witness :
    verify_totp_custom hm0 0 "111111" [] 90 6 30 1 = some (false, 0) ∧
    verify_hotp_custom hm0 "111111" [] 5 3 6 = some (false, 5) :=
  ⟨(claim_C7_no_match hm0 [] "111111" 6 (by decide) (by decide)).1 0 90 30 1
      (by decide) (by decide) (by decide)
      (fun n _ _ => by rw [otp_hm0_const]; decide),
   (claim_C7_no_match hm0 [] "111111" 6 (by decide) (by decide)).2 5 3
      (fun k _ => by rw [otp_hm0_const]; decide)⟩

/-- C8 (confirmed): the counter arithmetic of `verify_hotp_custom` is
wraparound-safe. For every counter below `2 ^ 64` (up to and including
`u64::MAX`) and every lookahead the call completes normally; a failure
returns the original counter, and a success returns a scanned counter
`(counter + k) % 2 ^ 64` plus one, again reduced modulo `2 ^ 64`, so the
result always fits in a `u64`. -/
theorem claim_C8_no_overflow (hm : List Nat → List Nat → List Nat) (password : String)
    (secret : List Nat) (counter lookahead digits : Nat)
    (hc : counter < U64) (h1 : 1 ≤ digits) (h10 : digits ≤ 10) :
    ∃ r : Bool × Nat, verify_hotp_custom hm password secret counter lookahead digits = some r ∧
      r.2 < U64 ∧ (r.1 = false → r.2 = counter) ∧
      (r.1 = true → ∃ k < hotpBound lookahead, r.2 = ((counter + k) % U64 + 1) % U64) := by
  unfold verify_hotp_custom
  obtain ⟨r, hr, hf, ht⟩ := scanHotp_total hm secret digits password counter
    (List.range (hotpBound lookahead))
    (fun k _ => ⟨_, otp_eq hm secret ((counter + k) % U64) h1 (by omega)⟩)
  refine ⟨r, hr, ?_, hf, fun htr => ?_⟩
  · rcases Bool.eq_false_or_eq_true r.1 with hb | hb
    · obtain ⟨k, -, he⟩ := ht hb
      rw [he]
      exact Nat.mod_lt _ (by norm_num [U64])
    · rw [hf hb]
      exact hc
  · obtain ⟨k, hkmem, he⟩ := ht htr
    rw [List.mem_range] at hkmem
    exact ⟨k, hkmem, he⟩

/-- Witness for C8 at a concrete input: the counter `u64::MAX - 1` with
lookahead 20, where the scan wraps past `u64::MAX`. -/
theorem claim_C8_witness :
    ∃ r : Bool × Nat, verify_hotp_custom hm0 "000000" [] (U64 - 2) 20 6 = some r ∧
      r.2 < U64 ∧ (r.1 = false → r.2 = U64 - 2) ∧
      (r.1 = true → ∃ k < hotpBound 20, r.2 = ((U64 - 2 + k) % U64 + 1) % U64) :=
  claim_C8_no_overflow hm0 "000000" [] (U64 - 2) 20 6 (by decide) (by decide) (by decide)

/-- C9 (confirmed): at `digits = 0` the modulus is `10 ^ 0 = 1`, every
truncated value reduces to `0`, the rendered code is the one-character
string "0", and the `usize` padding count `0 - 1` underflows, so the call
does not complete normally (modelled as `none`); in particular no
0-character password is returned. -/
theorem claim_C9_digits_zero (hm : List Nat → List Nat → List Nat) (secret : List Nat)
    (nonce : Nat) :
    decRender (dynamic_trunc (hm secret (u64BeBytes nonce)) % (10 ^ 0 % U32)) = ['0'] ∧
    otp_custom hm secret nonce 0 = none := by
  have hz : ∀ t : Nat, t % (10 ^ 0 % U32) = 0 := by
    intro t
    have hone : (10 : Nat) ^ 0 % U32 = 1 := by norm_num [U32]
    rw [hone, Nat.mod_one]
  constructor
  · rw [hz]
    decide
  · simp only [otp_custom]
    rw [hz]
    decide

/-- C10 (confirmed): the loop bound `lookahead + 1` is computed in `u8`
arithmetic. For every `lookahead ≤ 254` the bound is `lookahead + 1` (that
many offsets are scanned), while at `lookahead = 255` the bound wraps to
`0`: no counter is checked and the call returns `(false, counter)` for
every password, secret and MAC function. -/
theorem claim_C10_loop_bound :
    (∀ lookahead : Nat, lookahead ≤ 254 → hotpBound lookahead = lookahead + 1) ∧
    hotpBound 255 = 0 ∧
    (∀ (hm : List Nat → List Nat → List Nat) (password : String) (secret : List Nat)
      (counter digits : Nat),
      verify_hotp_custom hm password secret counter 255 digits = some (false, counter)) :=
  ⟨fun _ h => Nat.mod_eq_of_lt (by omega), rfl, fun _ _ _ _ _ => rfl⟩

/-- Witness for C10 at concrete inputs: bound 8 at lookahead 7, and the
degenerate scan at lookahead 255. -/
theorem claim_C10_witness :
    hotpBound 7 = 8 ∧ verify_hotp_custom hm0 "abc" [] 3 255 9 = some (false, 3) :=
  ⟨claim_C10_loop_bound.1 7 (by decide), claim_C10_loop_bound.2.2 hm0 "abc" [] 3 9⟩


end Thotp
